import Mathlib

/-!
Verification of the request-routing and edge-function pipeline.

This file gives a shallow embedding, in Lean 4, of the URL model, the
routing engine and the edge-function surface of the server, translated
from the TypeScript sources, together with theorems settling the stated
properties of those components.  JavaScript strings are modelled as Lean
strings (lists of characters); JavaScript objects used as string maps are
modelled as association lists; mutation is modelled by explicit state
passing; functions that can throw return an Except value.
-/

namespace Spec2Proof

/-! Character-list helpers mirroring the JavaScript string primitives
used by the sources (split, join, first-occurrence replace, prefixes). -/

/-- Splits a character list at every occurrence of the separator, like
the JavaScript split on a one-character string: the result is always
non-empty and contains the (possibly empty) chunks between separators. -/
def chSplit (sep : Char) : List Char → List (List Char)
  | [] => [[]]
  | c :: cs =>
    match chSplit sep cs with
    | [] => [[]]
    | s :: ss => if c = sep then [] :: s :: ss else (c :: s) :: ss

/-- Joins chunks with the separator between them, like the JavaScript
Array.join on a one-character string. -/
def chJoin (sep : Char) : List (List Char) → List Char
  | [] => []
  | [s] => s
  | s :: ss => s ++ sep :: chJoin sep ss

/-- Removes the first occurrence of the pattern from the list, like the
JavaScript String.replace with a string pattern and an empty replacement:
only the first occurrence is affected, and a list without the pattern is
returned unchanged. -/
def removeFirstOcc (pat : List Char) : List Char → List Char
  | [] => []
  | c :: cs =>
    if pat.isPrefixOf (c :: cs) then (c :: cs).drop pat.length
    else c :: removeFirstOcc pat cs

/-- JavaScript String.startsWith. -/
def strStartsWith (s p : String) : Bool := p.data.isPrefixOf s.data

/-- JavaScript String.endsWith. -/
def strEndsWith (s p : String) : Bool := p.data.isSuffixOf s.data

/-- JavaScript String.replace with a plain-string pattern and the empty
replacement (first occurrence only). -/
def replaceFirst (s pat : String) : String := ⟨removeFirstOcc pat.data s.data⟩

/-- Drops the first n characters of a string. -/
def strDropChars (s : String) (n : Nat) : String := ⟨s.data.drop n⟩

/-- Number of characters of a string. -/
def strLen (s : String) : Nat := s.data.length

/-- Whether the string contains the character. -/
def strHasChar (s : String) (c : Char) : Bool := s.data.contains c

/-- JavaScript truthiness of an optional string: undefined and the empty
string are falsy. -/
def truthy : Option String → Bool
  | none => false
  | some s => s ≠ ""

/-- The idiom `x || '/'` of the sources: an empty string falls back to
the root path. -/
def orSlash (s : String) : String := if s = "" then "/" else s

/-! Base-path stripping (URL model).

The sources strip a configured base path in two ways.  `replaceBasePath`
(router source) removes the first occurrence unconditionally;
`parseNextUrl` and `handleRequest` first test `pathname.startsWith(basePath)`
and record whether the base path was present. -/

/-- Embeds replaceBasePath from the router source: the JavaScript body is
`pathname.replace(basePath, '') || '/'`, which removes the FIRST
occurrence of basePath anywhere in pathname and falls back to the root
path when the result is empty. -/
def replaceBasePath (basePath pathname : String) : String :=
  orSlash (replaceFirst pathname basePath)

/-- Embeds the base-path stripping step of parseNextUrl (and of
handleRequest, which sets the had-base-path flag the same way): when a
base path is configured (truthy) and the pathname starts with it, the
first occurrence is removed with a root-path fallback and the flag is
recorded as true; otherwise the pathname is returned unchanged with a
false flag. -/
def stripBasePathParse (basePath : Option String) (pathname : String) :
    String × Bool :=
  if truthy basePath && strStartsWith pathname (basePath.getD "") then
    (orSlash (replaceFirst pathname (basePath.getD "")), true)
  else (pathname, false)

/-! Data-URL decomposition and formatting (URL model).

`getStuff` decomposes an incoming pathname into base path, build id (for
`/_next/data/<buildId>/...json` data requests) and locale; `formatStuff`
reassembles a canonical pathname.  The embedded functions below follow
the source files verbatim. -/

/-- The decomposed-pathname record of the URL-model source (named Stuff
there): the cleaned path plus the stripped base path, build id and
locale. -/
structure Stuff where
  path : String
  basePath : Option String := none
  buildId : Option String := none
  locale : Option String := none
deriving Repr, DecidableEq

/-- Options given to the decompose/format helpers. -/
structure StuffOptions where
  basePath : Option String := none
  defaultLocale : Option String := none
  locales : Option (List String) := none

/-- An anchored-at-start regex replace with the empty replacement, as in
the source patterns of the form caret-prefix. -/
def dropAnchoredPre (s pre : String) : String :=
  if strStartsWith s pre then strDropChars s (strLen pre) else s

/-- An anchored-at-end regex replace with the empty replacement, as in
the source patterns of the form suffix-dollar. -/
def dropAnchoredSuffix (s suf : String) : String :=
  if strEndsWith s suf then ⟨s.data.take (s.data.length - suf.data.length)⟩ else s

/-- Embeds getRemoveData from the URL-model source: a pathname of a data
request (starting with the data-directory marker and ending in the json
extension) is split after removing those anchors; the first chunk is the
build id, the rest is the cleaned path, with a first chunk literally
equal to index collapsing to the root path.  Any other pathname keeps
its path and records an empty build id. -/
def getRemoveData (st : Stuff) : Stuff :=
  if strStartsWith st.path "/_next/data/" && strEndsWith st.path ".json" then
    let s := dropAnchoredSuffix (dropAnchoredPre st.path "/_next/data/") ".json"
    match chSplit '/' s.data with
    | [] => { st with path := "/", buildId := some "" }
    | b :: rest =>
      if rest.head? = some "index".data then
        { st with path := "/", buildId := some ⟨b⟩ }
      else
        { st with path := ⟨'/' :: chJoin '/' rest⟩, buildId := some ⟨b⟩ }
  else { st with buildId := some "" }

/-- Position of the first occurrence of a character, if any (JavaScript
String.indexOf with the minus-one case mapped to none). -/
def chIndexOf (c : Char) : List Char → Option Nat
  | [] => none
  | x :: xs => if x = c then some 0 else (chIndexOf c xs).map (· + 1)

/-- Embeds pathNoQueryHash: cuts the path at the first question mark if
one is present, otherwise at the first hash mark, otherwise returns it
unchanged. -/
def pathNoQueryHash (path : String) : String :=
  match chIndexOf '?' path.data, chIndexOf '#' path.data with
  | some qi, _ => ⟨path.data.take qi⟩
  | none, some hi => ⟨path.data.take hi⟩
  | none, none => path

/-- Embeds addPathPrefix (shortened name): a path not starting with a
slash, or an absent or empty prefix argument, is passed through
unchanged; otherwise the prefix is prepended to the path component,
before any query or hash. -/
def addPathPre (path : String) (pre : Option String) : String :=
  if !strStartsWith path "/" || !truthy pre then path
  else
    let pathname := pathNoQueryHash path
    pre.getD "" ++ pathname ++ strDropChars path (strLen pathname)

/-- Embeds addPathSuffix: inserts the suffix after the path component,
before any query or hash. -/
def addPathSuffix (path suffix : String) : String :=
  let pathname := pathNoQueryHash path
  pathname ++ suffix ++ strDropChars path (strLen pathname)

/-- Lower-cases every character of a string (JavaScript toLowerCase on
the code points the sources use). -/
def lowerStr (s : String) : String := ⟨s.data.map Char.toLower⟩

/-- Modelled from the spec: pathHasPrefix (its source file is not under
src).  Per the spec contract for base-path handling, a path carries a
prefix when its query/hash-free part equals the prefix or starts with
the prefix followed by a slash. -/
def pathHasPre (path pre : String) : Bool :=
  let p := pathNoQueryHash path
  p = pre || strStartsWith p (pre ++ "/")

/-- Embeds addLocale: when a locale is set and differs from the default,
and the lower-cased path does not already carry the locale prefix and is
not an api path, the locale is prepended. -/
def addLocale (path : String) (locale defaultLocale : Option String) : String :=
  if truthy locale && locale != defaultLocale then
    let pathname := pathNoQueryHash path
    let pathLower := lowerStr pathname
    let localeLower := lowerStr (locale.getD "")
    if !pathHasPre pathLower ("/" ++ localeLower) && !pathHasPre pathLower "/api" then
      addPathPre path (some ("/" ++ locale.getD ""))
    else path
  else path

/-- Embeds formatStuff: first the locale is added (with the default
locale suppressed for data requests), then for a data request the
data-directory prefix and the json suffix (index dot json for the root)
are reinserted, and finally the stripped base path is prepended. -/
def formatStuff (stuff : Stuff) (opts : StuffOptions) : String :=
  let path := addLocale stuff.path stuff.locale
    (if !truthy stuff.buildId then opts.defaultLocale else none)
  let path :=
    if truthy stuff.buildId then
      addPathSuffix
        (addPathPre path (some ("/_next/data/" ++ stuff.buildId.getD "")))
        (if stuff.path = "/" then "index.json" else ".json")
    else path
  addPathPre path stuff.basePath

/-! Page-path normalization and the edge-manifest lookup. -/

/-- Embeds normalizePathSep: every backslash becomes a slash. -/
def normalizePathSep (path : String) : String :=
  ⟨path.data.map (fun c => if c = '\\' then '/' else c)⟩

/-- Embeds denormalizePagePath: separators are normalized, then a page
starting with the index segment and a slash loses the first six
characters, and the bare index page becomes the root. -/
def denormalizePagePath (page : String) : String :=
  let page := normalizePathSep page
  if strStartsWith page "/index/" then strDropChars page 6
  else if page = "/index" then "/"
  else page

/-- Modelled from the spec: normalizePagePath (its source file is not
under src).  Per the manifest-lookup contract, the root page maps to the
index page, a missing leading slash is added, and an already-normalized
page path is kept unchanged. -/
def normalizePagePath (page : String) : String :=
  if page = "/" then "/index"
  else if !strStartsWith page "/" then "/" ++ page
  else page

/-- An entry of the edge manifest: the page it covers and the built file
implementing it. -/
structure EdgeManifestItem where
  page : String
  file : String
deriving Repr, DecidableEq

/-- Embeds pageNotFoundError (represented by its message): the error
raised when no module exists for a page. -/
def pageNotFoundError (page : String) : String :=
  "Cannot find module for page: " ++ page

/-- Node path.join of the server build path with a manifest file. -/
def joinPath (a b : String) : String := a ++ "/" ++ b

/-- Embeds getEdgeFunctionPath: the page is normalized and denormalized,
then the manifest is iterated with Array.forEach whose callback returns
the joined path on a page match — but forEach discards every callback
return value, so the iteration has no observable effect (kept here as a
discarded computation) and control always reaches the final throw of
pageNotFoundError. -/
def getEdgeFunctionPath (page : String) (serverBuildPath : String)
    (edgeManifest : List EdgeManifestItem) : Except String String :=
  let page := denormalizePagePath (normalizePagePath page)
  let _ := edgeManifest.map (fun e =>
    if e.page = page then some (joinPath serverBuildPath e.file) else none)
  Except.error (pageNotFoundError page)

/-! The edge-function regex (compiled matcher).

getEdgeFunctionRegex builds, from a page path, the regular expression
deciding whether an edge function should run for a request path.  The
two concrete regex shapes of the source are embedded as decidable
matchers over character lists; the parametrized-route builder it calls
lives in a file that is not under src and is modelled from the spec. -/

/-- Modelled from the spec: getParametrizedRoute (route-regex.ts is not
under src).  Per the route-matcher contract the page path is split into
segments; a segment in square brackets compiles to a single-segment
parameter (one or more non-slash characters) and any other segment is
escaped and matches literally.  The segments of a non-root page: -/
def getParametrizedRouteSegs (page : String) : List (List Char) :=
  chSplit '/' (strDropChars page 1).data

/-- Whether a character list is free of newline characters (the
JavaScript dot in a regex does not match newlines). -/
def chNoNl (cs : List Char) : Bool := !cs.contains '\n'

/-- Matches one compiled segment against one path segment: a bracketed
segment compiles to one-or-more-non-slash-characters and accepts any
non-empty segment; any other segment matches literally. -/
def segMatches (pat seg : List Char) : Bool :=
  if pat.head? == some '[' && pat.getLast? == some ']' then !seg.isEmpty
  else pat == seg

/-- Embeds the trailing group of the compiled edge regex — an optional
slash followed by a dot-star, then the end anchor: it accepts the empty
remainder, or a slash followed by newline-free characters. -/
def tailGroupMatches : List Char → Bool
  | [] => true
  | c :: rest => c = '/' && chNoNl rest

/-- Matches the compiled non-root edge regex: each segment is preceded
by a slash and matched by segMatches, and the remainder is accepted by
the trailing group. -/
def segsMatch : List (List Char) → List Char → Bool
  | [], cs => tailGroupMatches cs
  | pat :: pats, cs =>
    match cs with
    | [] => false
    | c :: rest =>
      if c = '/' then
        let seg := rest.takeWhile (fun d => d != '/')
        segMatches pat seg && segsMatch pats (rest.drop seg.length)
      else false

/-- Embeds the root-page edge regex of the route-keys branch: a slash,
a negative lookahead refusing the next-data directory name, then
dot-star and the end anchor. -/
def rootEdgeRegexMatches : List Char → Bool
  | [] => false
  | c :: rest => c = '/' && !("_next".data.isPrefixOf rest) && chNoNl rest

/-- Embeds the root-page edge regex of the branch without route keys: a
slash followed by dot-star and the end anchor. -/
def rootEdgeRegexMatchesAll : List Char → Bool
  | [] => false
  | c :: rest => c = '/' && chNoNl rest

/-- Embeds getEdgeFunctionRegex as the matcher of the regex it returns:
with route keys and the root parametrized route, the root regex with the
negative lookahead; without route keys and the root route, the
match-anything root regex; otherwise the parametrized route followed by
the optional sub-path group (the named and unnamed shapes match the same
language). -/
def getEdgeFunctionRegexMatches (hasRouteKeys : Bool) (page : String)
    (path : String) : Bool :=
  if hasRouteKeys then
    if page = "/" then rootEdgeRegexMatches path.data
    else segsMatch (getParametrizedRouteSegs page) path.data
  else
    if page = "/" then rootEdgeRegexMatchesAll path.data
    else segsMatch (getParametrizedRouteSegs page) path.data

/-- Decidable equality for Except results, used to evaluate the
state-machine transitions on concrete inputs. -/
instance {e a : Type} [DecidableEq e] [DecidableEq a] :
    DecidableEq (Except e a) := fun x y =>
  match x, y with
  | Except.ok v, Except.ok w => decidable_of_iff (v = w) (by simp)
  | Except.ok _, Except.error _ => isFalse (fun h => Except.noConfusion h)
  | Except.error _, Except.ok _ => isFalse (fun h => Except.noConfusion h)
  | Except.error v, Except.error w => decidable_of_iff (v = w) (by simp)

/-! WHATWG Headers model.

Header names are case-insensitive; the model normalizes them to lower
case on every operation, as the WHATWG Headers class does. -/

/-- A WHATWG Headers object: an association list keyed by the
lower-cased header name. -/
structure WHeaders where
  entries : List (String × String)
deriving Repr, DecidableEq

/-- Lower-cases a header name. -/
def hname (s : String) : String := lowerStr s

/-- Headers.get: the value stored under the name, or none. -/
def WHeaders.get (h : WHeaders) (n : String) : Option String :=
  (h.entries.find? (fun e => e.1 == hname n)).map (fun e => e.2)

/-- Headers.has. -/
def WHeaders.has (h : WHeaders) (n : String) : Bool := (h.get n).isSome

/-- Headers.set: replaces any entry of the name with the new value. -/
def WHeaders.set (h : WHeaders) (n v : String) : WHeaders :=
  ⟨h.entries.filter (fun e => e.1 != hname n) ++ [(hname n, v)]⟩

/-- Headers.delete. -/
def WHeaders.delete (h : WHeaders) (n : String) : WHeaders :=
  ⟨h.entries.filter (fun e => e.1 != hname n)⟩

/-- Headers.append: combines with an existing value. -/
def WHeaders.append (h : WHeaders) (n v : String) : WHeaders :=
  match h.get n with
  | some old => h.set n (old ++ ", " ++ v)
  | none => h.set n v

/-! The streaming edge response (the response class of the edge-function
runtime).  The response is a state machine; mutation is modelled by
state passing, throwing by Except.  The stream plumbing is reduced to
its observable flags: whether streaming started, whether the writer was
acquired, and the emitted headers-sent events. -/

/-- Format options taken from the request URL: the fields formatPathname
consults. -/
structure UrlFormatOpts where
  basePath : Option String := none
  locale : Option String := none
  defaultLocale : Option String := none
deriving Repr, DecidableEq

/-- Embeds formatPathname from the edge-function utils: a pathname not
starting with a slash is returned unchanged; otherwise a truthy locale
distinct from the default is prepended, and then a truthy base path not
already present is prepended. -/
def formatPathname (pathname : String) (opts : UrlFormatOpts) : String :=
  if !strStartsWith pathname "/" then pathname
  else
    let p :=
      if truthy opts.locale && opts.defaultLocale != opts.locale then
        "/" ++ opts.locale.getD "" ++ pathname
      else pathname
    if truthy opts.basePath && !strStartsWith p (opts.basePath.getD "") then
      opts.basePath.getD "" ++ p
    else p

/-- The body slot of the edge response: undefined, null, or a buffered
string (stream bodies are outside this model). -/
inductive BodyVal
  | undef
  | null
  | str (s : String)
deriving Repr, DecidableEq

/-- A headers-sent event payload (the body mode announced to the
pipeline). -/
inductive HeadersEvent
  | streaming
  | data
deriving Repr, DecidableEq

/-- The observable state of the streaming EdgeResponse. -/
structure EdgeResp where
  method : String
  url : UrlFormatOpts := {}
  headers : WHeaders := ⟨[]⟩
  statusCode : Nat := 200
  finished : Bool := false
  headersSent : Bool := false
  streaming : Bool := false
  writerAcquired : Bool := false
  body : BodyVal := .undef
  events : List HeadersEvent := []
deriving Repr, DecidableEq

/-- Embeds the private sendHeaders: fails when headers were already
sent, otherwise marks them sent and emits the event. -/
def EdgeResp.sendHeadersE (r : EdgeResp) (e : HeadersEvent) :
    Except String EdgeResp :=
  if r.headersSent then Except.error "Headers were already sent"
  else Except.ok { r with headersSent := true, events := r.events ++ [e] }

/-- Embeds setHeaders: fails when headers were sent (also for an absent
argument), otherwise sets each given header. -/
def EdgeResp.setHeadersE (r : EdgeResp)
    (hs : Option (List (String × String))) : Except String EdgeResp :=
  if r.headersSent then Except.error "Headers were sent"
  else Except.ok { r with
    headers := (hs.getD []).foldl (fun a e => a.set e.1 e.2) r.headers }

/-- Embeds the writer getter: the first acquisition marks the response
streaming and, when headers were not yet sent, performs writeHead with
the current status, which sends the streaming headers event. -/
def EdgeResp.acquireWriter (r : EdgeResp) : EdgeResp :=
  if r.writerAcquired then r
  else
    let r2 : EdgeResp := { r with writerAcquired := true, streaming := true }
    if !r2.headersSent then
      { r2 with headersSent := true, events := r2.events ++ [HeadersEvent.streaming] }
    else r2

/-- Embeds write: the chunk is handed to the writer; only the
acquisition effects are observable in this model. -/
def EdgeResp.writeChunk (r : EdgeResp) : EdgeResp := r.acquireWriter

/-- Embeds end with a null datum: a finished response is left untouched;
otherwise in streaming mode the writer is closed (acquiring it if
needed), then the response becomes finished, and the headers-sent event
with the current body mode is emitted when headers were not yet sent. -/
def EdgeResp.endNone (r : EdgeResp) : EdgeResp :=
  if r.finished then r
  else
    let r2 := if r.streaming then r.acquireWriter else r
    let r3 : EdgeResp := { r2 with finished := true }
    if !r3.headersSent then
      { r3 with
        headersSent := true
        events := r3.events ++
          [if r3.streaming then HeadersEvent.streaming else HeadersEvent.data] }
    else r3

/-- The argument of send: a string (numbers and booleans arrive here
after the JavaScript String conversion), an object carried as its JSON
serialization, or null; stream bodies are outside this model. -/
inductive SendData
  | str (s : String)
  | obj (json : String)
  | null
deriving Repr, DecidableEq

/-- Embeds the buffered tail of send after the dispatch on the datum:
the content-length and content-type values are computed into a LOCAL
record (cHeaders in the source) that is never written back to the
response headers — the two discarded bindings below mirror that dead
code; the body becomes the string (empty for null); statuses 204, 205
and 304 delete the content headers and null the body; a HEAD request
nulls the body; finally end runs. -/
def EdgeResp.sendTail (r : EdgeResp) (data : Option String) : EdgeResp :=
  let _cLen := r.headers.get "content-length"
  let _cType := r.headers.get "content-type"
  let r2 : EdgeResp := { r with body := BodyVal.str (data.getD "") }
  if r2.statusCode = 204 || r2.statusCode = 205 || r2.statusCode = 304 then
    EdgeResp.endNone { r2 with
      headers := (r2.headers.delete "content-length").delete "content-type"
      body := BodyVal.null }
  else if r2.method = "HEAD" then
    EdgeResp.endNone { r2 with body := BodyVal.null }
  else EdgeResp.endNone r2

/-- Embeds send: fails on a finished response, applies the optional
extra headers (failing if headers were sent), dispatches an object
through json — which sets the JSON content-type when the header is
absent or empty and re-enters send with the serialized body, here
inlined since the inner send repeats checks that cannot change — and
runs the buffered tail. -/
def EdgeResp.send (r : EdgeResp) (data : SendData)
    (hs : Option (List (String × String))) : Except String EdgeResp :=
  if r.finished then Except.error "Response has been already been sent"
  else
    match r.setHeadersE hs with
    | Except.error e => Except.error e
    | Except.ok r2 =>
      match data with
      | SendData.obj j =>
        let r3 :=
          if (r2.headers.get "content-type").getD "" = "" then
            { r2 with headers := r2.headers.set "content-type" "application/json" }
          else r2
        Except.ok (r3.sendTail (some j))
      | SendData.str s => Except.ok (r2.sendTail (some s))
      | SendData.null => Except.ok (r2.sendTail none)

/-- Embeds end: a finished response is returned untouched without any
error; in streaming mode a string datum is written and the close path of
endNone runs; otherwise a string datum is delegated to send and a null
datum finishes the response through endNone. -/
def EdgeResp.endE (r : EdgeResp) (data : Option String) :
    Except String EdgeResp :=
  if r.finished then Except.ok r
  else if r.streaming then
    let r2 := match data with
      | some _ => r.writeChunk
      | none => r
    Except.ok r2.endNone
  else
    match data with
    | some s => r.send (SendData.str s) none
    | none => Except.ok r.endNone

/-- Embeds the private formatUrl on a string target: formatPathname with
the request-url options. -/
def EdgeResp.formatUrlStr (r : EdgeResp) (url : String) : String :=
  formatPathname url r.url

/-- Embeds the private location helper: the literal back resolves to the
RESPONSE headers entry named Referrer (falling back to the root path) —
the request headers are never consulted and the actual request header
name is Referer — and the redirect sentinel header is set to the
formatted target. -/
def EdgeResp.locationSet (r : EdgeResp) (url : String) : EdgeResp :=
  let u :=
    if url = "back" then
      match r.headers.get "Referrer" with
      | some s => if s = "" then "/" else s
      | none => "/"
    else url
  { r with headers := r.headers.set "x-nextjs-redirect" (r.formatUrlStr u) }

/-- Embeds redirect with a single string argument: the status defaults
to 302, the target is formatted, the location helper sets the redirect
sentinel, the status is stored and end runs. -/
def EdgeResp.redirectE (r : EdgeResp) (url : String) : Except String EdgeResp :=
  let address := r.formatUrlStr url
  let r2 := r.locationSet address
  let r3 : EdgeResp := { r2 with statusCode := 302 }
  r3.endE none

/-! The adapter edge response (the Express-style response class of the
middleware adapter source). -/

/-- Observable state of the adapter EdgeResponse: plain-object headers
(case-sensitive keys), optional status code, optional rewrite
destination, and the finished flag. -/
structure AdapterResp where
  headers : List (String × String) := []
  statusCode : Option Nat := none
  dest : Option String := none
  finished : Bool := false
deriving Repr, DecidableEq

/-- Embeds the adapter EdgeResponse end: once finished, any further call
throws the headers-already-sent error; otherwise the response becomes
finished. -/
def AdapterResp.endE (r : AdapterResp) : Except String AdapterResp :=
  if r.finished then Except.error "Headers already sent"
  else Except.ok { r with finished := true }

/-! The edge pipeline (runEdgeFunctions of the server source).

Each edge function is modelled as a matcher over the request pathname
plus its observable behavior: given the pathname and the inherited
response headers it yields the response headers after its execution
(user code sets the x-nextjs-next / x-nextjs-rewrite sentinels there;
each invocation is always found and built in this model, so the
warn-and-continue branch for a missing function does not arise).  The
loop and its recursion on internal rewrites are embedded with a fuel
parameter bounding the recursion depth; the theorems below show fuel 6
already stabilizes the pipeline, the recursion guard rejecting deeper
chains. -/

/-- An edge function of the pipeline: its page, its compiled matcher
over the pathname, and its observable behavior. -/
structure EdgeFnModel where
  page : String
  fmatch : String → Bool
  run : String → WHeaders → WHeaders

/-- Configuration of the pipeline: the discovered edge functions, the
configured base path and the configured locales. -/
structure EdgePipelineCfg where
  edgeFunctions : List EdgeFnModel
  basePath : String := ""
  locales : List String := []

/-- Modelled from the spec: normalizeLocalePath (its source file is not
under src).  Per the locale-detection contract, when the first path
segment equals a configured locale compared case-insensitively, it is
stripped (with a root fallback) and reported. -/
def normalizeLocalePath (p : String) (locales : List String) :
    String × Option String :=
  match locales.find? (fun l =>
      lowerStr p == lowerStr ("/" ++ l) ||
      strStartsWith (lowerStr p) (lowerStr ("/" ++ l ++ "/"))) with
  | some l => (orSlash (strDropChars p (strLen l + 1)), some l)
  | none => (p, none)

/-- Modelled from the spec: the pathname of the parsed destination that
prepareDestination (not under src) returns for a rewrite target — the
part of the target before any query string. -/
def destinationPathname (dest : String) : String := pathNoQueryHash dest

/-- Exit of the pipeline loop: a normal exit (fall-through or break,
after which the caller stamps the function-count header) carrying the
current result and call count, or an early return of a nested pipeline
result. -/
inductive EdgeLoopExit
  | normal (result : Option WHeaders) (calls : Nat)
  | early (result : Option WHeaders)

/-- Errors of the pipeline: the recursion guard, and exhaustion of the
embedding fuel (shown unreachable at fuel six). -/
inductive EdgeErr
  | tooManyCalls
  | outOfFuel
deriving Repr, DecidableEq

/-- The directive one loop iteration derives from a matching function's
response: continue with the next function (next sentinel present),
terminate the loop (break), or terminate with an internal rewrite that
re-enters the pipeline at the given pathname. -/
inductive StepDirective
  | cont (h : WHeaders)
  | brk (h : WHeaders)
  | recurse (h : WHeaders) (p3 : String)

/-- Embeds the body of one iteration of the runEdgeFunctions loop, up to
the recursive pipeline call.  The inherited headers (with the next
sentinel deleted; empty for the first invocation) are passed in and the
function runs.  Without a next sentinel on the outcome, an internal
rewrite target starting with a slash — base-path-stripped when a base
path is configured and locale-normalized when a locale is set — that
differs from the current pathname and matches some edge function yields
the recurse directive; any other terminal outcome yields break; a next
sentinel yields continue. -/
def edgeStep (cfg : EdgePipelineCfg) (pathname : String)
    (locale : Option String) (f : EdgeFnModel) (result : Option WHeaders) :
    StepDirective :=
  let inherited := match result with
    | some h => h.delete "x-nextjs-next"
    | none => (⟨[]⟩ : WHeaders)
  let h := f.run pathname inherited
  if !h.has "x-nextjs-next" then
    match h.get "x-nextjs-rewrite" with
    | some rw =>
      if strStartsWith rw "/" then
        let p1 := destinationPathname rw
        let p2 := if cfg.basePath ≠ "" then replaceBasePath cfg.basePath p1
          else p1
        let p3 := if truthy locale then (normalizeLocalePath p2 cfg.locales).1
          else p2
        if p3 ≠ pathname && cfg.edgeFunctions.any (fun g => g.fmatch p3) then
          StepDirective.recurse h p3
        else StepDirective.brk h
      else StepDirective.brk h
    | none => StepDirective.brk h
  else StepDirective.cont h

/-- Embeds the for-loop of runEdgeFunctions.  Every matching function
runs through edgeStep, counting one invocation (its page is appended to
the trace).  A continue directive proceeds to the next function with the
accumulated response; a break directive exits the loop normally; a
recurse directive re-enters the pipeline through the given recur
function with the current call count — a nested result without a truthy
next sentinel is returned early, otherwise the loop breaks. -/
def edgeLoop (cfg : EdgePipelineCfg)
    (recur : String → Option String → Nat →
      Except EdgeErr (Option WHeaders × List String))
    (pathname : String) (locale : Option String) :
    List EdgeFnModel → Nat → Option WHeaders → List String →
    Except EdgeErr (EdgeLoopExit × List String)
  | [], calls, result, trace => Except.ok (EdgeLoopExit.normal result calls, trace)
  | f :: rest, calls, result, trace =>
    if f.fmatch pathname then
      match edgeStep cfg pathname locale f result with
      | StepDirective.cont h =>
        edgeLoop cfg recur pathname locale rest (calls + 1) (some h)
          (trace ++ [f.page])
      | StepDirective.brk h =>
        Except.ok (EdgeLoopExit.normal (some h) (calls + 1), trace ++ [f.page])
      | StepDirective.recurse h p3 =>
        match recur p3 locale (calls + 1) with
        | Except.error e => Except.error e
        | Except.ok (nextResult, ntrace) =>
          if !(match nextResult with
              | some nh => truthy (nh.get "x-nextjs-next")
              | none => false) then
            Except.ok (EdgeLoopExit.early nextResult, (trace ++ [f.page]) ++ ntrace)
          else
            Except.ok (EdgeLoopExit.normal (some h) (calls + 1),
              (trace ++ [f.page]) ++ ntrace)
    else edgeLoop cfg recur pathname locale rest calls result trace

/-- Embeds runEdgeFunctions with explicit fuel: the recursion guard
rejects prevCalls above five with TooManyEdgeCalls, then the loop runs
starting from the inherited call count; a normal exit stamps the
x-nextjs-functions header with the total count on the final response,
while an early exit forwards the nested result as is. -/
def runEdgeFunctionsF (cfg : EdgePipelineCfg) :
    Nat → String → Option String → Nat →
    Except EdgeErr (Option WHeaders × List String)
  | fuel, pathname, locale, prevCalls =>
    if prevCalls > 5 then Except.error EdgeErr.tooManyCalls
    else
      match fuel with
      | 0 => Except.error EdgeErr.outOfFuel
      | fuel' + 1 =>
        match edgeLoop cfg (fun p l c => runEdgeFunctionsF cfg fuel' p l c)
            pathname locale cfg.edgeFunctions prevCalls none [] with
        | Except.error e => Except.error e
        | Except.ok (EdgeLoopExit.early r, trace) => Except.ok (r, trace)
        | Except.ok (EdgeLoopExit.normal r calls, trace) =>
          Except.ok
            (r.map (fun h => h.set "x-nextjs-functions" (toString calls)), trace)

/-- The pipeline as served: fuel seven (one more than the stabilization
depth proved below). -/
def runEdgeFunctions (cfg : EdgePipelineCfg) (pathname : String)
    (locale : Option String) (prevCalls : Nat) :
    Except EdgeErr (Option WHeaders × List String) :=
  runEdgeFunctionsF cfg 7 pathname locale prevCalls

/-- Seven edge functions matching every path, each yielding to the next
function: a pipeline input exercising the per-level loop. -/
def pipelineCfg7 : EdgePipelineCfg :=
  { edgeFunctions := (List.range 7).map (fun i =>
      { page := "/f" ++ toString i
        fmatch := fun _ => true
        run := fun _ h => h.set "x-nextjs-next" "1" }) }

/-! The routing engine (Router and its execute method).

Routes are data: matcher and handler are function fields, as in the
source Route type.  Every handler receives the shared parsed URL by
reference and may mutate it; the embedding passes the URL state
explicitly, each handler returning its RouteResult together with the URL
as it left it.  The engine additionally records the name of every route
handler it invokes in a trace, making handler invocation observable. -/

/-- The query of a parsed URL: a JavaScript object used as a string map,
modelled as an association list with object-update semantics. -/
abbrev Query := List (String × String)

/-- Reads a key of a query object. -/
def getQ (q : Query) (k : String) : Option String :=
  (q.find? (fun e => e.1 == k)).map (fun e => e.2)

/-- Writes a key of a query object (updating in place or appending). -/
def setQ (q : Query) (k v : String) : Query :=
  if q.any (fun e => e.1 == k) then
    q.map (fun e => if e.1 == k then (k, v) else e)
  else q ++ [(k, v)]

/-- Object spread of the updates over the query. -/
def mergeQ (q upd : Query) : Query :=
  upd.foldl (fun a e => setQ a e.1 e.2) q

/-- The parsed URL as the engine mutates it: pathname and query. -/
structure ParsedUrl where
  pathname : String
  query : Query := []
deriving Repr, DecidableEq

/-- The request fields the engine consults: the original-base-path and
did-rewrite markers set by the outer server, the trailing-slash marker,
and the material the has-clause matcher reads. -/
structure Req where
  hadBasePath : Bool := false
  didRewrite : Bool := false
  hadTrailingSlash : Bool := false
  headers : List (String × String) := []
  cookies : List (String × String) := []
  host : Option String := none
deriving Repr, DecidableEq

/-- Parameters captured by a route matcher. -/
abbrev Params := List (String × String)

/-- The result every handler returns: whether routing finished, and the
optional pathname and query effects to carry forward. -/
structure RouteResult where
  finished : Bool
  pathname : Option String := none
  query : Option Query := none
deriving Repr, DecidableEq

/-- A has-clause over the request: its kind (header, cookie, host or
query), the key and the optional expected value. -/
structure HasClause where
  htype : String
  key : String
  value : Option String := none
deriving Repr, DecidableEq

/-- Modelled from the spec: matchHas (its source file is not under src).
The matcher succeeds only if every clause matches — the named header,
cookie or query entry, or the host, exists and equals the expected value
when one is given — and a clause without an expected value captures the
found value under its key; on success the captures are returned. -/
def matchHas (req : Req) (clauses : List HasClause) (query : Query) :
    Option Params :=
  clauses.foldl
    (fun acc cl =>
      match acc with
      | none => none
      | some ps =>
        let fetched : Option String :=
          if cl.htype = "header" then
            (req.headers.find? (fun e => e.1 == cl.key)).map (fun e => e.2)
          else if cl.htype = "cookie" then
            (req.cookies.find? (fun e => e.1 == cl.key)).map (fun e => e.2)
          else if cl.htype = "host" then req.host
          else getQ query cl.key
        match fetched with
        | none => none
        | some v =>
          match cl.value with
          | some expect => if v = expect then some ps else none
          | none => some (ps ++ [(cl.key, v)]))
    (some [])

/-- A route of the engine: the per-route knobs are plain fields; the
matcher and the handler are function fields as in the source Route
type.  requireBasePath true models the absent marker (required);
false models the explicit opt-out. -/
structure Route where
  name : String := ""
  rtype : String := ""
  check : Bool := false
  requireBasePath : Bool := true
  internal : Bool := false
  hasClauses : Option (List HasClause) := none
  rmatch : String → Option Params
  fn : Req → Params → ParsedUrl → RouteResult × ParsedUrl

/-- The router state: the route groups, the catch-alls, the
page-existence oracle, the dynamic-route matchers and the locales (the
rewrites record of the source is flattened into the three fields). -/
structure Router where
  basePath : String := ""
  headers : List Route := []
  fsRoutes : List Route := []
  redirects : List Route := []
  beforeFiles : List Route := []
  afterFiles : List Route := []
  fallback : List Route := []
  catchAllRoute : Route
  catchAllEdgeFunctions : Route
  pageChecker : String → Bool
  dynamicRoutes : List (String → Option Params) := []
  useFileSystemPublicRoutes : Bool := true
  locales : List String := []

/-- The custom route types of the source. -/
def customRouteTypes : List String := ["rewrite", "redirect", "header"]

/-- Whether a route is a custom route. -/
def routeIsCustom (r : Route) : Bool := customRouteTypes.contains r.rtype

/-- Whether the engine keeps the base path for the route: custom routes
and the route named as the public-folder catch-all. -/
def routeKeepsBasePath (r : Route) : Bool :=
  routeIsCustom r || (r.name == "public folder catchall")

/-- Modelled from the spec: removePathTrailingSlash (its source file is
not under src): removes one trailing slash except on the root path. -/
def removePathTrailingSlash (p : String) : String :=
  if p ≠ "/" ∧ strEndsWith p "/" then ⟨p.data.take (p.data.length - 1)⟩ else p

/-- Modelled from the spec: the matcher compiled by path-match (not
under src) from the catch-all pattern of one optional wildcard
parameter: it matches the empty path and every slash-leading path,
capturing the remainder. -/
def matchAllRoute : String → Option Params :=
  fun p => if p = "" || strStartsWith p "/" then some [("path", p)] else none

/-- The memoized page checker of execute: locale-normalizes the path and
asks the page-existence oracle (the per-request memoization is
observationally the identity in a pure model). -/
def memoizedPageChecker (R : Router) (p : String) : Bool :=
  R.pageChecker (normalizeLocalePath p R.locales).1

/-- The filesystem part of applyCheckTrue: each fs route matching the
base-path-stripped pathname runs with that pathname temporarily in
place; a finished result ends the check as finished, otherwise the
pathname is restored and the iteration continues. -/
def applyCheckFsLoop (req : Req) (fsPathname originalFs : String) :
    List Route → ParsedUrl → List String → Bool × ParsedUrl × List String
  | [], url, trace => (false, url, trace)
  | r :: rest, url, trace =>
    match r.rmatch fsPathname with
    | some fsParams =>
      let stepped := r.fn req fsParams { url with pathname := fsPathname }
      if stepped.1.finished then (true, stepped.2, trace ++ [r.name])
      else applyCheckFsLoop req fsPathname originalFs rest
        { stepped.2 with pathname := originalFs } (trace ++ [r.name])
    | none => applyCheckFsLoop req fsPathname originalFs rest url trace

/-- Embeds applyCheckTrue: the fs routes are iterated against the
base-path-stripped pathname; if none finishes, the memoized page checker
and then the dynamic-route matchers are consulted; on a page match the
catch-all route runs with the stripped pathname in place and the
bubble-no-fallback marker added to the query (the match result cast the
source performs is modelled as a default on a missed match), and its
finished flag is the answer; on a miss the check reports false. -/
def applyCheckTrue (R : Router) (req : Req) (url : ParsedUrl) :
    Bool × ParsedUrl × List String :=
  let originalFs := url.pathname
  let fsPathname := replaceBasePath R.basePath originalFs
  match applyCheckFsLoop req fsPathname originalFs R.fsRoutes url [] with
  | (true, url2, trace) => (true, url2, trace)
  | (false, url2, trace) =>
    let matchedPage := memoizedPageChecker R fsPathname
    let matchedPage :=
      if matchedPage then true
      else
        R.dynamicRoutes.any (fun d =>
          (d (normalizeLocalePath fsPathname R.locales).1).isSome)
    if matchedPage then
      let pageParams := (R.catchAllRoute.rmatch url2.pathname).getD []
      let stepped := R.catchAllRoute.fn req pageParams
        { url2 with
          pathname := fsPathname
          query := setQ url2.query "_nextBubbleNoFallback" "1" }
      (stepped.1.finished, stepped.2, trace ++ [R.catchAllRoute.name])
    else (false, url2, trace)

/-- The pathname the engine hands to the matcher of a route: stripped of
the base path for non-custom routes; for custom routes the locale is
re-prefixed when the query carries a detected locale the path lost, and
the trailing slash is restored when the request originally had one; for
base-path-keeping routes the base path is re-prefixed only when the
request originally carried it. -/
def computeCurrentPathname (R : Router) (req : Req) (r : Route)
    (url : ParsedUrl) : String :=
  let currentPathname0 := url.pathname
  let keepBasePath := routeKeepsBasePath r
  let keepLocale := routeIsCustom r
  let noBasePath := replaceBasePath R.basePath currentPathname0
  let currentPathname1 := if !keepBasePath then noBasePath else currentPathname0
  let localePathResult := normalizeLocalePath noBasePath R.locales
  let activeBasePath := if keepBasePath then R.basePath else ""
  if keepLocale then
    let cp :=
      if !r.internal && truthy (getQ url.query "__nextLocale") &&
          localePathResult.2.isNone then
        activeBasePath ++ "/" ++ (getQ url.query "__nextLocale").getD "" ++
          (if noBasePath = "/" then "" else noBasePath)
      else currentPathname1
    if req.hadTrailingSlash && !strEndsWith cp "/" then cp ++ "/" else cp
  else
    (if req.hadBasePath then activeBasePath else "") ++
      (if activeBasePath != "" && localePathResult.1 == "/" then ""
       else localePathResult.1)

/-- The match of a route against the computed pathname, combined with
its has clauses: has captures are merged into the parameters, and a
failed has clause turns the match into a non-match. -/
def computeMatch (R : Router) (req : Req) (r : Route) (url : ParsedUrl) :
    Option Params :=
  match r.rmatch (computeCurrentPathname R req r url), r.hasClauses with
  | some ps, some clauses =>
    match matchHas req clauses url.query with
    | some hp => some (ps ++ hp)
    | none => none
  | np, _ => np

/-- Exit of one route iteration of the engine loop: the request
finished, the not-found short-circuit of the base-path guard, or
continuation with the following route. -/
inductive StepExit
  | finished
  | notFound
  | next
deriving Repr, DecidableEq

/-- Observable outcome of one route iteration: the exit, the shared URL
afterwards, whether the route matched, whether its handler was invoked,
and the names of the handlers that ran. -/
structure StepResult where
  exit : StepExit
  url : ParsedUrl
  matched : Bool
  invoked : Bool
  trace : List String

/-- Embeds the per-route body of execute up to (but excluding) the check
re-entry: the pathname is computed per the route kind and matched; on a
match, a non-base-path-keeping route is short-circuited by the base-path
guard — not-found when it requires the base path, skipped otherwise —
when the request neither carried the base path originally nor was
rewritten; otherwise the handler runs with the temporary pathname in
place, a finished result ends routing, and an unfinished one restores
the pathname and merges the returned pathname and query effects. -/
def processRouteCore (R : Router) (req : Req) (r : Route)
    (url : ParsedUrl) : StepResult :=
  let originalPathname := url.pathname
  let keepBasePath := routeKeepsBasePath r
  match computeMatch R req r url with
  | none =>
    { exit := StepExit.next, url := url, matched := false, invoked := false,
      trace := [] }
  | some params =>
    let originallyHadBasePath := (R.basePath == "") || req.hadBasePath
    if !keepBasePath && !originallyHadBasePath && !req.didRewrite then
      if r.requireBasePath then
        { exit := StepExit.notFound, url := url, matched := true,
          invoked := false, trace := [] }
      else
        { exit := StepExit.next, url := url, matched := true,
          invoked := false, trace := [] }
    else
      let url1 :=
        if !keepBasePath then
          { url with pathname := computeCurrentPathname R req r url }
        else url
      let stepped := r.fn req params url1
      if stepped.1.finished then
        { exit := StepExit.finished, url := stepped.2, matched := true,
          invoked := true, trace := [r.name] }
      else
        let url3 :=
          if !keepBasePath then { stepped.2 with pathname := originalPathname }
          else stepped.2
        let url4 := match stepped.1.pathname with
          | some p => { url3 with pathname := p }
          | none => url3
        let url5 := match stepped.1.query with
          | some q => { url4 with query := mergeQ url4.query q }
          | none => url4
        { exit := StepExit.next, url := url5, matched := true, invoked := true,
          trace := [r.name] }

/-- Embeds one full iteration of the engine loop: the core step and
then, when the route matched, its handler ran without finishing and the
route carries the check flag, the applyCheckTrue re-entry, whose
finishing ends routing. -/
def processRoute (R : Router) (req : Req) (r : Route) (url : ParsedUrl) :
    StepResult :=
  let s := processRouteCore R req r url
  if s.invoked && (s.exit == StepExit.next) && r.check then
    match applyCheckTrue R req s.url with
    | (fin, url2, trace2) =>
      { exit := if fin then StepExit.finished else StepExit.next
        url := url2
        matched := s.matched
        invoked := s.invoked
        trace := s.trace ++ trace2 }
  else s

/-- The page-checker route execute inserts when the filesystem exposes
public page routes; its handler delegates to the catch-all when a page
exists for the trailing-slash-normalized pathname. -/
def pageCheckerRoute (R : Router) : Route :=
  { name := "page checker"
    rtype := "route"
    requireBasePath := false
    rmatch := matchAllRoute
    fn := fun req params url =>
      let pathname := removePathTrailingSlash (orSlash url.pathname)
      if pathname = "" then ({ finished := false }, url)
      else if memoizedPageChecker R pathname then
        R.catchAllRoute.fn req params url
      else ({ finished := false }, url) }

/-- The dynamic-route/page-check route execute inserts ahead of the
fallback rewrites: its handler runs applyCheckTrue and reports the
outcome, the URL keeping whatever the subroutine wrote on it. -/
def dynamicCheckRoute (R : Router) : Route :=
  { name := "dynamic route/page check"
    rtype := "route"
    requireBasePath := false
    rmatch := matchAllRoute
    fn := fun req _params url =>
      match applyCheckTrue R req url with
      | (fin, url2, _) => ({ finished := fin }, url2) }

/-- The ordered route list execute assembles. -/
def allRoutes (R : Router) : List Route :=
  R.headers ++ R.redirects ++ R.beforeFiles ++ R.fsRoutes ++
  (if R.useFileSystemPublicRoutes then [R.catchAllEdgeFunctions] else []) ++
  (if R.useFileSystemPublicRoutes then [pageCheckerRoute R] else []) ++
  R.afterFiles ++
  (if R.fallback.isEmpty then [] else dynamicCheckRoute R :: R.fallback) ++
  (if R.useFileSystemPublicRoutes then [R.catchAllRoute] else [])

/-- The loop of execute over the assembled routes. -/
def executeLoop (R : Router) (req : Req) :
    List Route → ParsedUrl → List String → Bool × ParsedUrl × List String
  | [], url, trace => (false, url, trace)
  | r :: rest, url, trace =>
    let s := processRoute R req r url
    match s.exit with
    | StepExit.finished => (true, s.url, trace ++ s.trace)
    | StepExit.notFound => (false, s.url, trace ++ s.trace)
    | StepExit.next => executeLoop R req rest s.url (trace ++ s.trace)

/-- Embeds Router.execute: runs the loop over the assembled routes,
returning whether some route finished the request, the final shared URL
and the trace of invoked handlers. -/
def Router.execute (R : Router) (req : Req) (url : ParsedUrl) :
    Bool × ParsedUrl × List String :=
  executeLoop R req (allRoutes R) url []

/-- A minimal concrete router with a configured base path, used as a
concrete engine input in the theorems below. -/
def sampleRouter : Router :=
  { basePath := "/docs"
    catchAllRoute :=
      { name := "Catchall render"
        rtype := "route"
        rmatch := matchAllRoute
        fn := fun _ _ u => ({ finished := true }, u) }
    catchAllEdgeFunctions :=
      { name := "catchall for edge functions"
        rtype := "route"
        rmatch := matchAllRoute
        fn := fun _ _ u => ({ finished := false }, u) }
    pageChecker := fun _ => false }

/-- A concrete router whose page oracle knows one page and whose
catch-all bubbles a no-fallback miss (it returns finished false), the
configuration in which applyCheckTrue leaves its marker behind. -/
def bubblingRouter : Router :=
  { catchAllRoute :=
      { name := "Catchall render"
        rtype := "route"
        rmatch := matchAllRoute
        fn := fun _ _ u => ({ finished := false }, u) }
    catchAllEdgeFunctions :=
      { name := "catchall for edge functions"
        rtype := "route"
        rmatch := matchAllRoute
        fn := fun _ _ u => ({ finished := false }, u) }
    pageChecker := fun p => p == "/a" }

/-- The public-folder catch-all route as generatePublicRoutes builds it:
no type field, no requireBasePath marker, a catch-all matcher; the
handler (which serves files and checks the base path internally) is
observable here through the invocation trace. -/
def publicFolderRoute : Route :=
  { name := "public folder catchall"
    rmatch := matchAllRoute
    fn := fun _ _ u => ({ finished := false }, u) }

/-- A non-custom filesystem route with a catch-all matcher and a
handler that never mutates the URL, used as a concrete input. -/
def fsRouteX : Route :=
  { name := "_next/static catchall"
    rtype := "route"
    rmatch := matchAllRoute
    fn := fun _ _ u => ({ finished := true }, u) }

/-- A header route whose handler never finishes and leaves the URL
untouched (header routes only write response headers). -/
def headerRouteX : Route :=
  { name := "header x"
    rtype := "header"
    rmatch := matchAllRoute
    fn := fun _ _ u => ({ finished := false }, u) }

/-! THEOREMS. All embedded definitions are above; everything below
proves properties of them. -/

/-! Facts about removeFirstOcc used below. -/

theorem removeFirstOcc_of_isPrefixOf (pat s : List Char)
    (h : pat.isPrefixOf s = true) : removeFirstOcc pat s = s.drop pat.length := by
  cases s with
  | nil =>
    have : pat = [] := by
      cases pat with
      | nil => rfl
      | cons c cs => simp [List.isPrefixOf] at h
    subst this
    rfl
  | cons c cs => simp [removeFirstOcc, h]

theorem strStartsWith_drop (s p : String) (h : strStartsWith s p = true) :
    replaceFirst s p = strDropChars s (strLen p) := by
  unfold replaceFirst strDropChars strLen
  rw [removeFirstOcc_of_isPrefixOf _ _ h]

/-- C2 (amended): for a configured non-empty basePath, the parse-time
stripper removes the leading occurrence of basePath (i.e. drops exactly
its characters) with a root fallback and reports true exactly when the
pathname starts with basePath — even when the prefix is not followed by
a slash; otherwise it returns the pathname unchanged with false. -/
theorem stripBasePathParse_characterization (bp p : String) (hbp : bp ≠ "") :
    (strStartsWith p bp = true →
      stripBasePathParse (some bp) p = (orSlash (strDropChars p (strLen bp)), true)) ∧
    (strStartsWith p bp = false →
      stripBasePathParse (some bp) p = (p, false)) := by
  constructor
  · intro h
    have hc : (truthy (some bp) && strStartsWith p ((some bp).getD "")) = true := by
      simp [truthy, h, hbp]
    unfold stripBasePathParse
    rw [if_pos hc, Option.getD_some, strStartsWith_drop p bp h]
  · intro h
    unfold stripBasePathParse
    simp [truthy, h]

/-- Witness for the amended C2 theorem at a concrete input. -/
theorem stripBasePathParse_characterization_witness :
    stripBasePathParse (some "/docs") "/docs/a" = ("/a", true) := by
  have h := (stripBasePathParse_characterization "/docs" "/docs/a" (by decide)).1
  rw [h (by decide)]
  decide

/-- C2 counterexample: "/docsify" starts with the base path "/docs" but
not with "/docs/" and is not equal to "/docs"; the claim therefore
requires it to be returned unchanged with a false flag, yet the code
strips the prefix (yielding a path without a leading slash) and reports
true. -/
theorem stripBasePathParse_counterexample :
    (strStartsWith "/docsify" "/docs/" = false ∧ "/docsify" ≠ "/docs") ∧
    stripBasePathParse (some "/docs") "/docsify" = ("ify", true) ∧
    stripBasePathParse (some "/docs") "/docsify" ≠ ("/docsify", false) := by
  refine ⟨⟨by decide, by decide⟩, by decide, by decide⟩

/-! Facts about the split/join and index helpers. -/

theorem chSplit_cons (sep c : Char) (cs : List Char) :
    chSplit sep (c :: cs) =
      match chSplit sep cs with
      | [] => [[]]
      | s :: ss => if c = sep then [] :: s :: ss else (c :: s) :: ss := rfl

theorem chSplit_ne_nil (sep : Char) (l : List Char) : chSplit sep l ≠ [] := by
  cases l with
  | nil => simp [chSplit]
  | cons c cs =>
    rw [chSplit_cons]
    cases h : chSplit sep cs with
    | nil => simp
    | cons s ss => by_cases hc : c = sep <;> simp [hc]

theorem chJoin_chSplit (sep : Char) (l : List Char) :
    chJoin sep (chSplit sep l) = l := by
  induction l with
  | nil => rfl
  | cons c cs ih =>
    rw [chSplit_cons]
    cases h : chSplit sep cs with
    | nil => exact absurd h (chSplit_ne_nil sep cs)
    | cons s ss =>
      rw [h] at ih
      by_cases hc : c = sep
      · subst hc
        simp only [if_pos rfl, chJoin]
        cases ss <;> simpa [chJoin] using ih
      · simp only [if_neg hc]
        cases ss with
        | nil => simpa [chJoin] using congrArg (List.cons c) ih
        | cons t ts => simpa [chJoin] using congrArg (List.cons c) ih

theorem chSplit_append (sep : Char) (xs t : List Char) (h : sep ∉ xs) :
    chSplit sep (xs ++ sep :: t) = xs :: chSplit sep t := by
  induction xs with
  | nil =>
    simp only [List.nil_append]
    rw [chSplit_cons]
    cases ht : chSplit sep t with
    | nil => exact absurd ht (chSplit_ne_nil sep t)
    | cons s ss => simp [ht]
  | cons x xs ih =>
    have hx : x ≠ sep := fun e => h (by simp [e])
    have h' : sep ∉ xs := fun m => h (List.mem_cons_of_mem _ m)
    simp only [List.cons_append]
    rw [chSplit_cons, ih h']
    simp [hx]

theorem chIndexOf_eq_none (c : Char) (l : List Char) (h : c ∉ l) :
    chIndexOf c l = none := by
  induction l with
  | nil => rfl
  | cons x xs ih =>
    have hx : x ≠ c := fun e => h (by simp [e])
    have h' : c ∉ xs := fun m => h (List.mem_cons_of_mem _ m)
    simp [chIndexOf, hx, ih h']

theorem pathNoQueryHash_of_clean (s : String) (hq : '?' ∉ s.data)
    (hh : '#' ∉ s.data) : pathNoQueryHash s = s := by
  unfold pathNoQueryHash
  rw [chIndexOf_eq_none _ _ hq, chIndexOf_eq_none _ _ hh]

theorem strDrop_len (s : String) : strDropChars s (strLen s) = "" := by
  unfold strDropChars strLen
  rw [List.drop_length]

theorem strStartsWith_of_data (s p : String) (rest : List Char)
    (h : s.data = p.data ++ rest) : strStartsWith s p = true := by
  unfold strStartsWith
  rw [h, List.isPrefixOf_iff_prefix]
  exact List.prefix_append _ _

theorem strEndsWith_of_data (s p : String) (front : List Char)
    (h : s.data = front ++ p.data) : strEndsWith s p = true := by
  unfold strEndsWith
  rw [h, List.isSuffixOf_iff_suffix]
  exact List.suffix_append _ _

theorem dropAnchoredPre_data (s pre : String) (rest : List Char)
    (h : s.data = pre.data ++ rest) : (dropAnchoredPre s pre).data = rest := by
  unfold dropAnchoredPre
  rw [if_pos (strStartsWith_of_data s pre rest h)]
  unfold strDropChars strLen
  simp [h]

theorem dropAnchoredSuffix_data (s suf : String) (front : List Char)
    (h : s.data = front ++ suf.data) :
    (dropAnchoredSuffix s suf).data = front := by
  unfold dropAnchoredSuffix
  rw [if_pos (strEndsWith_of_data s suf front h)]
  simp [h]

theorem strAppend_assoc (a b c : String) : a ++ b ++ c = a ++ (b ++ c) := by
  apply String.ext
  simp [String.data_append, List.append_assoc]

/-! Component behavior of the format helpers on clean paths. -/

theorem addPathPre_none (path : String) : addPathPre path none = path := by
  simp [addPathPre, truthy]

theorem addPathPre_clean (path pre : String)
    (hs : strStartsWith path "/" = true) (hpre : pre ≠ "")
    (hq : '?' ∉ path.data) (hh : '#' ∉ path.data) :
    addPathPre path (some pre) = pre ++ path := by
  unfold addPathPre
  rw [if_neg]
  · show (some pre).getD "" ++ pathNoQueryHash path ++
      strDropChars path (strLen (pathNoQueryHash path)) = pre ++ path
    rw [pathNoQueryHash_of_clean path hq hh, strDrop_len, String.append_empty]
    rfl
  · simp [hs, truthy, hpre]

theorem addPathSuffix_clean (path suffix : String)
    (hq : '?' ∉ path.data) (hh : '#' ∉ path.data) :
    addPathSuffix path suffix = path ++ suffix := by
  show pathNoQueryHash path ++ suffix ++
    strDropChars path (strLen (pathNoQueryHash path)) = path ++ suffix
  rw [pathNoQueryHash_of_clean path hq hh, strDrop_len, String.append_empty]

theorem addLocale_none (path : String) (d : Option String) :
    addLocale path none d = path := by
  simp [addLocale, truthy]

/-- Core computation of getRemoveData on a well-formed data URL: with
the path being the data marker, then a slash-free build id, a slash, a
remainder and the json extension, the build id is extracted and the
remainder (re-rooted with a slash) becomes the path, except that a
remainder whose first chunk is index collapses to the root. -/
theorem getRemoveData_eq (st : Stuff) (bd rest : List Char)
    (h : st.path.data = "/_next/data/".data ++ (bd ++ '/' :: (rest ++ ".json".data)))
    (hb : '/' ∉ bd) :
    getRemoveData st =
      { st with
        path := if (chSplit '/' rest).head? = some "index".data then "/"
          else ⟨'/' :: rest⟩,
        buildId := some ⟨bd⟩ } := by
  have h1 : strStartsWith st.path "/_next/data/" = true :=
    strStartsWith_of_data _ _ _ h
  have h2 : strEndsWith st.path ".json" = true := by
    refine strEndsWith_of_data _ _
      ("/_next/data/".data ++ (bd ++ '/' :: rest)) ?_
    rw [h]
    simp [List.append_assoc]
  have h3 : (dropAnchoredPre st.path "/_next/data/").data =
      bd ++ '/' :: (rest ++ ".json".data) := dropAnchoredPre_data _ _ _ h
  have h4 : (dropAnchoredSuffix (dropAnchoredPre st.path "/_next/data/")
      ".json").data = bd ++ '/' :: rest := by
    refine dropAnchoredSuffix_data _ _ (bd ++ '/' :: rest) ?_
    rw [h3]
    simp [List.append_assoc]
  have h5 : chSplit '/' (bd ++ '/' :: rest) = bd :: chSplit '/' rest :=
    chSplit_append '/' bd rest hb
  unfold getRemoveData
  rw [if_pos (by simp [h1, h2])]
  simp only [h4, h5]
  by_cases hidx : (chSplit '/' rest).head? = some "index".data
  · simp [hidx]
  · simp [hidx, chJoin_chSplit]

theorem dataPre_ne (b : String) : ("/_next/data/" ++ b) ≠ "" := by
  intro e
  have h : ("/_next/data/" ++ b).data = [] := by rw [e]
  rw [String.data_append] at h
  exact absurd (List.append_eq_nil.mp h).1 (by decide)

theorem not_mem_append3 {c : Char} {l1 l2 l3 : List Char}
    (h1 : c ∉ l1) (h2 : c ∉ l2) (h3 : c ∉ l3) : c ∉ l1 ++ l2 ++ l3 := by
  simp only [List.mem_append]
  rintro ((h | h) | h)
  · exact h1 h
  · exact h2 h
  · exact h3 h

/-- Computation of formatStuff on a data request without base path and
locale: the data-directory prefix with the build id is prepended and the
json suffix (index dot json for the root) is appended. -/
theorem formatStuff_dataPath (p b : String) (hb : b ≠ "")
    (hs : strStartsWith p "/" = true)
    (hq : '?' ∉ p.data) (hh : '#' ∉ p.data)
    (hbq : '?' ∉ b.data) (hbh : '#' ∉ b.data) :
    formatStuff { path := p, buildId := some b } {} =
      ("/_next/data/" ++ b) ++ p ++ (if p = "/" then "index.json" else ".json") := by
  have htru : truthy (some b) = true := by simp [truthy, hb]
  have h1 : addPathPre p (some ("/_next/data/" ++ b)) = ("/_next/data/" ++ b) ++ p :=
    addPathPre_clean p _ hs (dataPre_ne b) hq hh
  have hq2 : '?' ∉ (("/_next/data/" ++ b) ++ p).data := by
    rw [String.data_append, String.data_append]
    exact not_mem_append3 (by decide) hbq hq
  have hh2 : '#' ∉ (("/_next/data/" ++ b) ++ p).data := by
    rw [String.data_append, String.data_append]
    exact not_mem_append3 (by decide) hbh hh
  unfold formatStuff
  simp only [addLocale_none, htru, Option.getD_some, if_true, Bool.not_true,
    Bool.false_eq_true, if_false, h1, addPathSuffix_clean _ _ hq2 hh2,
    addPathPre_none]

/-- C9: data-URL decomposition and formatting round-trip.  For a
slash-free non-empty build id b without query or hash characters: the
root data URL with index dot json decomposes to the root path carrying
b, and formatting the root with b set reinserts the data prefix with
index dot json; for every non-root page path p (leading slash, no query
or hash characters, first segment not the literal index), the data URL
built from p decomposes back to p, and formatting restores the original
data URL. -/
theorem dataUrl_roundtrip (b p : String)
    (hb : b ≠ "") (hbs : '/' ∉ b.data) (hbq : '?' ∉ b.data) (hbh : '#' ∉ b.data)
    (hp : strStartsWith p "/" = true) (hroot : p ≠ "/")
    (hpq : '?' ∉ p.data) (hph : '#' ∉ p.data)
    (hidx : (chSplit '/' (strDropChars p 1).data).head? ≠ some "index".data) :
    getRemoveData { path := "/_next/data/" ++ b ++ "/index.json" } =
      { path := "/", buildId := some b } ∧
    formatStuff { path := "/", buildId := some b } {} =
      "/_next/data/" ++ b ++ "/index.json" ∧
    getRemoveData { path := "/_next/data/" ++ b ++ p ++ ".json" } =
      { path := p, buildId := some b } ∧
    formatStuff { path := p, buildId := some b } {} =
      "/_next/data/" ++ b ++ p ++ ".json" := by
  have hpd : ("/" : String).data.isPrefixOf p.data = true := hp
  rw [List.isPrefixOf_iff_prefix] at hpd
  obtain ⟨t, ht⟩ := hpd
  have htp : p.data = '/' :: t := by
    rw [← ht]; rfl
  refine ⟨?_, ?_, ?_, ?_⟩
  · have hdata : ("/_next/data/" ++ b ++ "/index.json" : String).data =
        "/_next/data/".data ++ (b.data ++ '/' :: ("index".data ++ ".json".data)) := by
      simp only [String.data_append, List.append_assoc]
      rfl
    rw [getRemoveData_eq _ b.data "index".data hdata hbs]
    have hsp : (chSplit '/' "index".data).head? = some "index".data := by decide
    simp [hsp]
  · rw [formatStuff_dataPath "/" b hb (by decide) (by decide) (by decide) hbq hbh]
    rw [if_pos rfl, strAppend_assoc]
    rfl
  · have hdata : ("/_next/data/" ++ b ++ p ++ ".json" : String).data =
        "/_next/data/".data ++ (b.data ++ '/' :: (t ++ ".json".data)) := by
      simp only [String.data_append, htp, List.append_assoc, List.cons_append]
      try rfl
    rw [getRemoveData_eq _ b.data t hdata hbs]
    have hidx2 : ¬ (chSplit '/' t).head? = some "index".data := by
      have : (strDropChars p 1).data = t := by
        unfold strDropChars
        rw [htp]
        rfl
      rw [this] at hidx
      exact hidx
    simp only [hidx2, if_false]
    have : (⟨'/' :: t⟩ : String) = p := by
      apply String.ext
      rw [htp]
    rw [this]
  · rw [formatStuff_dataPath p b hb hp hpq hph hbq hbh, if_neg hroot]

/-- Witness for the C9 round-trip theorem at a concrete build id and
page path. -/
theorem dataUrl_roundtrip_witness :
    getRemoveData { path := "/_next/data/abc123/foo/bar.json" } =
      { path := "/foo/bar", buildId := some "abc123" } ∧
    formatStuff { path := "/foo/bar", buildId := some "abc123" } {} =
      "/_next/data/abc123/foo/bar.json" := by
  have h := dataUrl_roundtrip "abc123" "/foo/bar" (by decide) (by decide)
    (by decide) (by decide) (by decide) (by decide) (by decide) (by decide)
    (by decide)
  refine ⟨?_, ?_⟩
  · have := h.2.2.1
    rw [show ("/_next/data/" ++ "abc123" ++ "/foo/bar" ++ ".json" : String) =
      "/_next/data/abc123/foo/bar.json" from by decide] at this
    exact this
  · have := h.2.2.2
    rw [show ("/_next/data/" ++ "abc123" ++ "/foo/bar" ++ ".json" : String) =
      "/_next/data/abc123/foo/bar.json" from by decide] at this
    exact this

/-- C5: the edge-manifest lookup loses the matched file.  At the page
"/foo" with a manifest containing an entry for exactly that (normalized)
page, the embedded getEdgeFunctionPath still evaluates to the
PageNotFoundError — the return statement inside the forEach callback
never reaches the caller — whereas the claim (and the function's own
documentation) promise the joined file path for a matching entry. -/
theorem getEdgeFunctionPath_bug :
    getEdgeFunctionPath "/foo" "/dist/server"
      [{ page := "/foo", file := "pages/foo.js" }] =
      Except.error (pageNotFoundError "/foo") ∧
    ({ page := "/foo", file := "pages/foo.js" } : EdgeManifestItem).page =
      denormalizePagePath (normalizePagePath "/foo") :=
  ⟨rfl, by decide⟩

/-! Facts about the edge-function regex matcher. -/

theorem segsMatch_nil (cs : List Char) : segsMatch [] cs = tailGroupMatches cs := rfl

theorem segsMatch_cons (pat : List Char) (pats : List (List Char))
    (rest : List Char) :
    segsMatch (pat :: pats) ('/' :: rest) =
      (segMatches pat (rest.takeWhile (fun d => d != '/')) &&
        segsMatch pats (rest.drop
          (rest.takeWhile (fun d => d != '/')).length)) := rfl

theorem segMatches_self (pat : List Char) : segMatches pat pat = true := by
  unfold segMatches
  split
  · next h =>
    cases pat with
    | nil => simp at h
    | cons c cs => simp
  · simp

theorem chSplit_sep_not_mem (sep : Char) (l : List Char) :
    ∀ seg ∈ chSplit sep l, sep ∉ seg := by
  induction l with
  | nil =>
    intro seg h
    simp [chSplit] at h
    subst h
    simp
  | cons c cs ih =>
    intro seg h
    rw [chSplit_cons] at h
    cases hs : chSplit sep cs with
    | nil => exact absurd hs (chSplit_ne_nil sep cs)
    | cons s ss =>
      rw [hs] at h
      have h2 : seg ∈ (if c = sep then [] :: s :: ss else (c :: s) :: ss) := h
      by_cases hc : c = sep
      · rw [if_pos hc] at h2
        rcases List.mem_cons.mp h2 with h | h
        · subst h; simp
        · exact ih seg (hs ▸ h)
      · rw [if_neg hc] at h2
        rcases List.mem_cons.mp h2 with h | h
        · subst h
          intro hm
          rcases List.mem_cons.mp hm with hm | hm
          · exact hc hm.symm
          · exact ih s (hs ▸ List.mem_cons_self s ss) hm
        · exact ih seg (hs ▸ List.mem_cons_of_mem s h)

theorem takeWhile_append_stop (p s : List Char) (hp : '/' ∉ p) :
    (p ++ '/' :: s).takeWhile (fun d => d != '/') = p := by
  induction p with
  | nil => simp
  | cons c cs ih =>
    have hc : c ≠ '/' := fun e => hp (by simp [e])
    have h' : '/' ∉ cs := fun m => hp (List.mem_cons_of_mem _ m)
    simp [List.takeWhile_cons, hc, ih h']

theorem chJoin_cons_cons (sep : Char) (p q : List Char) (qs : List (List Char)) :
    chJoin sep (p :: q :: qs) = p ++ sep :: chJoin sep (q :: qs) := rfl

theorem chNoNl_of_not_mem {s : List Char} (h : '\n' ∉ s) : chNoNl s = true := by
  simp [chNoNl, h]

theorem segsMatch_join (s : List Char) (hs : chNoNl s = true) :
    ∀ segs, segs ≠ [] → (∀ seg ∈ segs, '/' ∉ seg) →
      segsMatch segs ('/' :: (chJoin '/' segs ++ '/' :: s)) = true := by
  intro segs
  induction segs with
  | nil => intro h; exact absurd rfl h
  | cons p ps ih =>
    intro _ hfree
    have hp : '/' ∉ p := hfree p (List.mem_cons_self p ps)
    cases ps with
    | nil =>
      show segsMatch [p] ('/' :: (p ++ '/' :: s)) = true
      rw [segsMatch_cons]
      have htake : (p ++ '/' :: s).takeWhile (fun d => d != '/') = p :=
        takeWhile_append_stop p s hp
      rw [htake, List.drop_left, segsMatch_nil]
      simp [segMatches_self, tailGroupMatches, hs]
    | cons q qs =>
      have hfree' : ∀ seg ∈ q :: qs, '/' ∉ seg :=
        fun seg m => hfree seg (List.mem_cons_of_mem p m)
      rw [chJoin_cons_cons]
      have harr : (p ++ '/' :: chJoin '/' (q :: qs)) ++ '/' :: s =
          p ++ '/' :: (chJoin '/' (q :: qs) ++ '/' :: s) := by
        simp [List.append_assoc]
      rw [harr, segsMatch_cons]
      have htake : (p ++ '/' :: (chJoin '/' (q :: qs) ++ '/' :: s)).takeWhile
          (fun d => d != '/') = p := takeWhile_append_stop p _ hp
      rw [htake, List.drop_left]
      simp [segMatches_self, ih (by simp) hfree']

/-- C10: behavior of the compiled edge-function matcher.  First, for the
root page with route keys, a slash-leading newline-free path matches
exactly when it does not begin with the next-data directory prefix.
Second, for every non-root page (with or without route keys), every
strict sub-path of the page — the page followed by a slash and any
newline-free remainder — matches. -/
theorem edgeFunctionRegex_behavior :
    (∀ p : String, strStartsWith p "/" = true → '\n' ∉ p.data →
      (getEdgeFunctionRegexMatches true "/" p = true ↔
        strStartsWith p "/_next" = false)) ∧
    (∀ (k : Bool) (page s : String), strStartsWith page "/" = true →
      page ≠ "/" → '\n' ∉ s.data →
      getEdgeFunctionRegexMatches k page (page ++ "/" ++ s) = true) := by
  constructor
  · intro p hp hnl
    have hpd : ("/" : String).data.isPrefixOf p.data = true := hp
    rw [List.isPrefixOf_iff_prefix] at hpd
    obtain ⟨t, ht⟩ := hpd
    have htp : p.data = '/' :: t := by rw [← ht]; rfl
    have hnt : '\n' ∉ t := fun m => hnl (htp ▸ List.mem_cons_of_mem _ m)
    unfold getEdgeFunctionRegexMatches
    rw [if_pos rfl, if_pos rfl, htp]
    unfold rootEdgeRegexMatches
    simp only [chNoNl_of_not_mem hnt, Bool.and_true, decide_True, Bool.true_and]
    unfold strStartsWith
    rw [htp]
    show (!List.isPrefixOf "_next".data t) = true ↔
      List.isPrefixOf "/_next".data ('/' :: t) = false
    simp [List.isPrefixOf]
  · intro k page s hpage hroot hnl
    have hpd : ("/" : String).data.isPrefixOf page.data = true := hpage
    rw [List.isPrefixOf_iff_prefix] at hpd
    obtain ⟨t, ht⟩ := hpd
    have htp : page.data = '/' :: t := by rw [← ht]; rfl
    have hsegs : getParametrizedRouteSegs page = chSplit '/' t := by
      unfold getParametrizedRouteSegs strDropChars
      rw [htp]
      rfl
    have hpathd : (page ++ "/" ++ s).data =
        '/' :: (chJoin '/' (chSplit '/' t) ++ '/' :: s.data) := by
      rw [String.data_append, String.data_append, htp, chJoin_chSplit]
      simp only [List.append_assoc, List.cons_append]
      rfl
    have hmain : segsMatch (getParametrizedRouteSegs page)
        (page ++ "/" ++ s).data = true := by
      rw [hsegs, hpathd]
      exact segsMatch_join s.data (chNoNl_of_not_mem hnl) (chSplit '/' t)
        (chSplit_ne_nil '/' t) (chSplit_sep_not_mem '/' t)
    have hmain2 : segsMatch (getParametrizedRouteSegs page)
        (page.data ++ '/' :: s.data) = true := by
      have hd : (page ++ "/" ++ s).data = page.data ++ '/' :: s.data := by
        simp [String.data_append]
      rw [← hd]
      exact hmain
    unfold getEdgeFunctionRegexMatches
    cases k <;> simp [if_neg hroot, hmain2]

/-- Witness for the C10 theorem at concrete inputs: the root matcher
accepts a plain path and refuses a next-data path, and the matcher of a
dynamic page accepts a strict sub-path of the page. -/
theorem edgeFunctionRegex_behavior_witness :
    getEdgeFunctionRegexMatches true "/" "/foo" = true ∧
    getEdgeFunctionRegexMatches true "/dynamic/[id]" "/dynamic/[id]/x" = true := by
  constructor
  · exact (edgeFunctionRegex_behavior.1 "/foo" (by decide) (by decide)).mpr
      (by decide)
  · have h := edgeFunctionRegex_behavior.2 true "/dynamic/[id]" "x"
      (by decide) (by decide) (by decide)
    rw [show ("/dynamic/[id]" ++ "/" ++ "x" : String) = "/dynamic/[id]/x"
      from by decide] at h
    exact h

/-! Field-preservation facts about the edge response transitions. -/

theorem acquireWriter_headers (r : EdgeResp) :
    r.acquireWriter.headers = r.headers := by
  simp only [EdgeResp.acquireWriter]
  split_ifs <;> simp_all

theorem acquireWriter_body (r : EdgeResp) : r.acquireWriter.body = r.body := by
  simp only [EdgeResp.acquireWriter]
  split_ifs <;> simp_all

theorem endNone_headers (r : EdgeResp) : r.endNone.headers = r.headers := by
  simp only [EdgeResp.endNone]
  split_ifs <;> simp_all [acquireWriter_headers]

theorem endNone_body (r : EdgeResp) : r.endNone.body = r.body := by
  simp only [EdgeResp.endNone]
  split_ifs <;> simp_all [acquireWriter_body]

theorem endNone_finished (r : EdgeResp) (h : r.finished = false) :
    r.endNone.finished = true := by
  simp only [EdgeResp.endNone, h]
  split_ifs <;> simp_all

/-- C8 (amended): end as a terminal transition.  On the streaming edge
response, a first end with no datum on a non-finished non-streaming
state finishes the response and, when headers were not yet sent, emits
the data headers-sent event; once finished, ANY further end is a silent
no-op rather than a failure; on the adapter edge response, by contrast,
an end after finishing fails with the HeadersAlreadySent error. -/
theorem end_transition (r : EdgeResp) (a : AdapterResp)
    (hr : r.finished = false) (hst : r.streaming = false)
    (ha : a.finished = true) :
    EdgeResp.endE r none = Except.ok
      (if r.headersSent then { r with finished := true }
       else { r with
         finished := true
         headersSent := true
         events := r.events ++ [HeadersEvent.data] }) ∧
    (∀ (r2 : EdgeResp) (d : Option String), r2.finished = true →
      EdgeResp.endE r2 d = Except.ok r2) ∧
    AdapterResp.endE a = Except.error "Headers already sent" := by
  refine ⟨?_, ?_, ?_⟩
  · unfold EdgeResp.endE EdgeResp.endNone
    rw [hr, hst]
    by_cases hh : r.headersSent <;> simp [hh, hst]
  · intro r2 d h2
    unfold EdgeResp.endE
    rw [h2]
    rfl
  · unfold AdapterResp.endE
    rw [ha]
    rfl

/-- Witness for the amended C8 theorem at concrete states. -/
theorem end_transition_witness :
    EdgeResp.endE { method := "GET" } none =
      Except.ok { method := "GET"
                  finished := true
                  headersSent := true
                  events := [HeadersEvent.data] } ∧
    AdapterResp.endE { finished := true } =
      Except.error "Headers already sent" := by
  have h := end_transition { method := "GET" } { finished := true } rfl rfl rfl
  refine ⟨?_, h.2.2⟩
  rw [h.1]
  decide

/-- C8 counterexample: a second call to end on the streaming edge
response does not fail — after a first end on a fresh response, calling
end again returns the finished state unchanged instead of a
HeadersAlreadySent error. -/
theorem second_end_counterexample :
    EdgeResp.endE { method := "GET" } none =
      Except.ok { method := "GET"
                  finished := true
                  headersSent := true
                  events := [HeadersEvent.data] } ∧
    EdgeResp.endE { method := "GET"
                    finished := true
                    headersSent := true
                    events := [HeadersEvent.data] } none =
      Except.ok { method := "GET"
                  finished := true
                  headersSent := true
                  events := [HeadersEvent.data] } := by decide

/-- C6: redirect with the literal back never sees the request Referer.
The location helper reads only the response's own headers under the name
Referrer: with the empty response headers a first pipeline invocation
receives, redirect back targets the root path even when the incoming
request carried a Referer header; and even a response-headers entry
named referer — the spelling clients actually send — is ignored by the
Referrer lookup. -/
theorem redirect_back_bug :
    (EdgeResp.redirectE { method := "GET" } "back").map
      (fun r => (r.headers.get "x-nextjs-redirect", r.statusCode)) =
      Except.ok (some "/", 302) ∧
    (EdgeResp.redirectE { method := "GET", headers := ⟨[("referer", "https://example.com/a")]⟩ } "back").map
      (fun r => r.headers.get "x-nextjs-redirect") =
      Except.ok (some "/") := by decide

/-- C7 counterexample: send with a plain string does not auto-set the
content headers.  On a fresh GET response, sending a string leaves the
response headers without content-type and without content-length — the
computed values live only in a discarded local record — while the claim
requires text/plain and the byte length to be set. -/
theorem send_counterexample :
    (EdgeResp.send { method := "GET" } (SendData.str "hello") none).map
      (fun r => (r.headers.get "content-type", r.headers.get "content-length",
        r.body)) =
      Except.ok (none, none, BodyVal.str "hello") := by decide

/-- C7 (amended): behavior of send without extra headers on a response
whose headers are not yet sent.  A plain-string send leaves the response
headers exactly unchanged (the computed text/plain content-type and the
byte-length content-length are never applied to them), stores the
buffered body and finishes; on status 204, 205 or 304 the body is
suppressed to null and the content-length and content-type headers are
deleted; on a HEAD request the body is suppressed with headers
unchanged; an object send sets content-type application/json when that
header is absent or empty and stores the JSON body. -/
theorem send_behavior (r : EdgeResp) (s j : String)
    (hfin : r.finished = false) (hhs : r.headersSent = false) :
    ((r.statusCode ≠ 204 ∧ r.statusCode ≠ 205 ∧ r.statusCode ≠ 304) →
      r.method ≠ "HEAD" →
      (EdgeResp.send r (SendData.str s) none).map
        (fun x => (x.headers, x.body, x.finished)) =
        Except.ok (r.headers, BodyVal.str s, true)) ∧
    ((r.statusCode = 204 ∨ r.statusCode = 205 ∨ r.statusCode = 304) →
      (EdgeResp.send r (SendData.str s) none).map
        (fun x => (x.headers, x.body, x.finished)) =
        Except.ok ((r.headers.delete "content-length").delete "content-type",
          BodyVal.null, true)) ∧
    ((r.statusCode ≠ 204 ∧ r.statusCode ≠ 205 ∧ r.statusCode ≠ 304) →
      r.method = "HEAD" →
      (EdgeResp.send r (SendData.str s) none).map
        (fun x => (x.headers, x.body, x.finished)) =
        Except.ok (r.headers, BodyVal.null, true)) ∧
    ((r.headers.get "content-type").getD "" = "" →
      (r.statusCode ≠ 204 ∧ r.statusCode ≠ 205 ∧ r.statusCode ≠ 304) →
      r.method ≠ "HEAD" →
      (EdgeResp.send r (SendData.obj j) none).map
        (fun x => (x.headers, x.body, x.finished)) =
        Except.ok (r.headers.set "content-type" "application/json",
          BodyVal.str j, true)) := by
  refine ⟨?_, ?_, ?_, ?_⟩
  · rintro ⟨h1, h2, h3⟩ hm
    unfold EdgeResp.send EdgeResp.setHeadersE EdgeResp.sendTail
    simp [hfin, hhs, h1, h2, h3, hm, Except.map, endNone_headers,
      endNone_body, endNone_finished]
  · intro h
    unfold EdgeResp.send EdgeResp.setHeadersE EdgeResp.sendTail
    rcases h with h | h | h <;>
      simp [hfin, hhs, h, Except.map, endNone_headers, endNone_body,
        endNone_finished]
  · rintro ⟨h1, h2, h3⟩ hm
    unfold EdgeResp.send EdgeResp.setHeadersE EdgeResp.sendTail
    simp [hfin, hhs, h1, h2, h3, hm, Except.map, endNone_headers,
      endNone_body, endNone_finished]
  · intro hct ⟨h1, h2, h3⟩ hm
    unfold EdgeResp.send EdgeResp.setHeadersE EdgeResp.sendTail
    simp [hfin, hhs, hct, h1, h2, h3, hm, Except.map, endNone_headers,
      endNone_body, endNone_finished]

/-- Witness for the amended C7 theorem at concrete inputs: a string send
on a fresh GET response and on a 204 response. -/
theorem send_behavior_witness :
    (EdgeResp.send { method := "GET" } (SendData.str "hi") none).map
      (fun x => (x.headers, x.body, x.finished)) =
      Except.ok ((⟨[]⟩ : WHeaders), BodyVal.str "hi", true) ∧
    (EdgeResp.send { method := "GET", statusCode := 204 }
        (SendData.str "hi") none).map
      (fun x => (x.headers, x.body, x.finished)) =
      Except.ok ((⟨[]⟩ : WHeaders), BodyVal.null, true) := by
  constructor
  · have h := (send_behavior { method := "GET" } "hi" "" rfl rfl).1
      (by decide) (by decide)
    simpa using h
  · have h := (send_behavior { method := "GET", statusCode := 204 } "hi" ""
      rfl rfl).2.1 (Or.inl rfl)
    simpa using h

/-! Facts about the edge-pipeline recursion. -/

theorem edgeLoop_congr (cfg : EdgePipelineCfg)
    (recur1 recur2 : String → Option String → Nat →
      Except EdgeErr (Option WHeaders × List String))
    (pathname : String) (locale : Option String) :
    ∀ (fns : List EdgeFnModel) (calls : Nat) (result : Option WHeaders)
      (trace : List String),
      (∀ p l c, calls + 1 ≤ c → recur1 p l c = recur2 p l c) →
      edgeLoop cfg recur1 pathname locale fns calls result trace =
        edgeLoop cfg recur2 pathname locale fns calls result trace := by
  intro fns
  induction fns with
  | nil => intro calls result trace _; rfl
  | cons f rest ih =>
    intro calls result trace h
    simp only [edgeLoop]
    by_cases hm : f.fmatch pathname
    · simp only [hm, if_true]
      cases edgeStep cfg pathname locale f result with
      | cont hh =>
        exact ih (calls + 1) (some hh) (trace ++ [f.page])
          (fun p l c hc => h p l c (by omega))
      | brk hh => rfl
      | recurse hh p3 =>
        show (match recur1 p3 locale (calls + 1) with
          | Except.error e => Except.error e
          | Except.ok (nextResult, ntrace) =>
            if !(match nextResult with
                | some nh => truthy (nh.get "x-nextjs-next")
                | none => false) then
              Except.ok (EdgeLoopExit.early nextResult, (trace ++ [f.page]) ++ ntrace)
            else
              Except.ok (EdgeLoopExit.normal (some hh) (calls + 1),
                (trace ++ [f.page]) ++ ntrace)) = _
        rw [h p3 locale (calls + 1) (Nat.le_refl _)]
    · simp only [hm, if_false]
      exact ih calls result trace h

theorem runEdgeFunctionsF_guard (cfg : EdgePipelineCfg) (fuel : Nat)
    (p : String) (l : Option String) (c : Nat) (h5 : c > 5) :
    runEdgeFunctionsF cfg fuel p l c = Except.error EdgeErr.tooManyCalls := by
  rw [runEdgeFunctionsF.eq_def]
  show (if c > 5 then Except.error EdgeErr.tooManyCalls
    else match fuel with
      | 0 => Except.error EdgeErr.outOfFuel
      | fuel' + 1 =>
        match edgeLoop cfg (fun p2 l2 c2 => runEdgeFunctionsF cfg fuel' p2 l2 c2)
            p l cfg.edgeFunctions c none [] with
        | Except.error e => Except.error e
        | Except.ok (EdgeLoopExit.early r, trace) => Except.ok (r, trace)
        | Except.ok (EdgeLoopExit.normal r calls, trace) =>
          Except.ok
            (r.map (fun h => h.set "x-nextjs-functions" (toString calls)),
              trace)) = Except.error EdgeErr.tooManyCalls
  rw [if_pos h5]

theorem runEdgeFunctionsF_succ (cfg : EdgePipelineCfg) (f : Nat)
    (p : String) (l : Option String) (c : Nat) (h5 : ¬ c > 5) :
    runEdgeFunctionsF cfg (f + 1) p l c =
      match edgeLoop cfg (fun p2 l2 c2 => runEdgeFunctionsF cfg f p2 l2 c2)
          p l cfg.edgeFunctions c none [] with
      | Except.error e => Except.error e
      | Except.ok (EdgeLoopExit.early r, trace) => Except.ok (r, trace)
      | Except.ok (EdgeLoopExit.normal r calls, trace) =>
        Except.ok
          (r.map (fun h => h.set "x-nextjs-functions" (toString calls)),
            trace) := by
  rw [runEdgeFunctionsF.eq_def]
  show (if c > 5 then Except.error EdgeErr.tooManyCalls
    else
      match edgeLoop cfg (fun p2 l2 c2 => runEdgeFunctionsF cfg f p2 l2 c2)
          p l cfg.edgeFunctions c none [] with
      | Except.error e => Except.error e
      | Except.ok (EdgeLoopExit.early r, trace) => Except.ok (r, trace)
      | Except.ok (EdgeLoopExit.normal r calls, trace) =>
        Except.ok
          (r.map (fun h => h.set "x-nextjs-functions" (toString calls)),
            trace)) = _
  rw [if_neg h5]

theorem runEdgeFunctionsF_stable (cfg : EdgePipelineCfg) :
    ∀ (fuel : Nat) (p : String) (l : Option String) (c : Nat),
      6 - c ≤ fuel →
      runEdgeFunctionsF cfg (fuel + 1) p l c =
        runEdgeFunctionsF cfg fuel p l c := by
  intro fuel
  induction fuel with
  | zero =>
    intro p l c hc
    have h5 : c > 5 := by omega
    rw [runEdgeFunctionsF_guard cfg 1 p l c h5, runEdgeFunctionsF_guard cfg 0 p l c h5]
  | succ f ih =>
    intro p l c hc
    by_cases h5 : c > 5
    · rw [runEdgeFunctionsF_guard cfg (f + 1 + 1) p l c h5,
        runEdgeFunctionsF_guard cfg (f + 1) p l c h5]
    · have hcong := edgeLoop_congr cfg
        (fun p2 l2 c2 => runEdgeFunctionsF cfg (f + 1) p2 l2 c2)
        (fun p2 l2 c2 => runEdgeFunctionsF cfg f p2 l2 c2) p l
        cfg.edgeFunctions c none []
        (fun p2 l2 c2 hcc => ih p2 l2 c2 (by omega))
      rw [runEdgeFunctionsF_succ cfg (f + 1) p l c h5,
        runEdgeFunctionsF_succ cfg f p l c h5, hcong]

/-- C1 (amended): the pipeline caps only its recursion.  Entering the
pipeline with a carried call count above five fails with
TooManyEdgeCalls regardless of fuel, so the recursion triggered by
internal rewrites is bounded: the embedding is fuel-stable from depth
six minus the carried count (at most six counted nesting levels do any
work).  The total number of invocations for one request is NOT bounded
by five: within one level the loop runs every matching function that
yields, as the counterexample shows. -/
theorem edgePipeline_cap (cfg : EdgePipelineCfg) (p : String)
    (l : Option String) (c : Nat) :
    (c > 5 → ∀ fuel, runEdgeFunctionsF cfg fuel p l c =
      Except.error EdgeErr.tooManyCalls) ∧
    (∀ fuel, 6 - c ≤ fuel →
      runEdgeFunctionsF cfg (fuel + 1) p l c =
        runEdgeFunctionsF cfg fuel p l c) := by
  constructor
  · intro h fuel
    exact runEdgeFunctionsF_guard cfg fuel p l c h
  · intro fuel h
    exact runEdgeFunctionsF_stable cfg fuel p l c h

/-- Witness for the amended C1 theorem: the guard fires at carried count
six whatever the fuel, and the pipeline of seven always-yielding
functions is fuel-stable at depth six. -/
theorem edgePipeline_cap_witness :
    runEdgeFunctionsF pipelineCfg7 3 "/" none 6 =
      Except.error EdgeErr.tooManyCalls ∧
    runEdgeFunctionsF pipelineCfg7 7 "/" none 0 =
      runEdgeFunctionsF pipelineCfg7 6 "/" none 0 :=
  ⟨(edgePipeline_cap pipelineCfg7 "/" none 6).1 (by omega) 3,
    (edgePipeline_cap pipelineCfg7 "/" none 0).2 6 (by omega)⟩

/-- C1 counterexample: a single client request through seven matching
edge functions that all yield performs seven invocations — more than
five — and the pipeline succeeds, stamping seven in the
x-nextjs-functions header, instead of failing with TooManyEdgeCalls. -/
theorem edgeCalls_counterexample :
    (runEdgeFunctions pipelineCfg7 "/" none 0).map
      (fun r => (r.2.length, r.1.map (fun h => h.get "x-nextjs-functions"))) =
      Except.ok (7, some (some "7")) ∧ 7 > 5 :=
  ⟨by decide, by omega⟩

/-- C3 (amended): the snapshot-and-restore of the routing engine, for
handlers that do not themselves mutate the shared URL.  When the route's
handler leaves the URL exactly as it received it and returns finished
false with neither a pathname nor a query in its RouteResult, the parsed
URL after the core iteration (the handler's invocation plus the engine's
restore, before any check re-entry) equals the parsed URL before it, and
the full iteration preserves it as well whenever the route does not
carry the check flag.  With the check flag the guarantee fails: the
engine re-enters applyCheckTrue on the shared URL and keeps its
mutations — see the counterexample, where the bubble-no-fallback marker
survives on the query. -/
theorem routeCore_preserves_url (R : Router) (req : Req) (r : Route)
    (url : ParsedUrl)
    (hpure : ∀ p u, r.fn req p u = ({ finished := false }, u)) :
    (processRouteCore R req r url).url = url ∧
    (r.check = false → (processRoute R req r url).url = url) := by
  have hcore : (processRouteCore R req r url).url = url := by
    cases hm : computeMatch R req r url with
    | none => simp [processRouteCore, hm]
    | some params =>
      simp only [processRouteCore, hm, hpure]
      split_ifs <;> first | rfl | simp_all
  refine ⟨hcore, fun hchk => ?_⟩
  have heq : processRoute R req r url = processRouteCore R req r url := by
    simp [processRoute, hchk]
  rw [heq]
  exact hcore

/-- Witness for the amended C3 theorem: a header route whose handler
neither finishes nor writes the URL leaves the parsed URL of a
base-path request unchanged through the core step and the full
iteration. -/
theorem routeCore_preserves_url_witness :
    (processRouteCore sampleRouter { hadBasePath := true } headerRouteX
      { pathname := "/docs/x" }).url = { pathname := "/docs/x" } ∧
    (processRoute sampleRouter { hadBasePath := true } headerRouteX
      { pathname := "/docs/x" }).url = { pathname := "/docs/x" } :=
  ⟨(routeCore_preserves_url sampleRouter { hadBasePath := true } headerRouteX
      { pathname := "/docs/x" } (fun _ _ => rfl)).1,
    (routeCore_preserves_url sampleRouter { hadBasePath := true } headerRouteX
      { pathname := "/docs/x" } (fun _ _ => rfl)).2 rfl⟩

/-- C3 counterexample: the dynamic-route/page-check route the engine
itself inserts ahead of the fallback rewrites.  On a router whose page
oracle knows the page and whose catch-all bubbles a no-fallback miss,
its handler returns finished false with no pathname and no query in its
RouteResult, yet the parsed URL after the iteration differs from the one
before: the query gained the _nextBubbleNoFallback marker that
applyCheckTrue wrote on the shared URL. -/
theorem routeRestore_counterexample :
    ((dynamicCheckRoute bubblingRouter).fn { } [] { pathname := "/a" }).1 =
      ({ finished := false } : RouteResult) ∧
    (processRoute bubblingRouter { } (dynamicCheckRoute bubblingRouter)
      { pathname := "/a" }).url ≠ ({ pathname := "/a" } : ParsedUrl) ∧
    (processRoute bubblingRouter { } (dynamicCheckRoute bubblingRouter)
      { pathname := "/a" }).url =
      { pathname := "/a", query := [("_nextBubbleNoFallback", "1")] } := by
  refine ⟨by decide, by decide, by decide⟩

/-- C4 (amended): the base-path guard, for routes that do not keep the
base path.  For every route neither of a custom type nor named as the
public-folder catch-all, when a base path is configured and the request
neither originally carried it nor was rewritten, the engine never
invokes the route's handler; and whenever the route (with its has
clauses) matches the computed pathname, the iteration exits with the
not-found short-circuit if the route requires the base path, and merely
skips to the subsequent routes if it declares requireBasePath false.
The public-folder catch-all is exempt by its name — see the
counterexample. -/
theorem basePathGuard (R : Router) (req : Req) (r : Route) (url : ParsedUrl)
    (hcustom : customRouteTypes.contains r.rtype = false)
    (hname : r.name ≠ "public folder catchall")
    (hbp : R.basePath ≠ "") (hhad : req.hadBasePath = false)
    (hrw : req.didRewrite = false) :
    (processRoute R req r url).invoked = false ∧
    (processRoute R req r url).trace = [] ∧
    ((computeMatch R req r url).isSome →
      (processRoute R req r url).exit =
        (if r.requireBasePath then StepExit.notFound else StepExit.next)) := by
  have hkeep : routeKeepsBasePath r = false := by
    unfold routeKeepsBasePath routeIsCustom
    rw [hcustom]
    simp [hname]
  have hcore : (processRouteCore R req r url).invoked = false ∧
      (processRouteCore R req r url).trace = [] ∧
      ((computeMatch R req r url).isSome →
        (processRouteCore R req r url).exit =
          (if r.requireBasePath then StepExit.notFound else StepExit.next)) := by
    cases hm : computeMatch R req r url with
    | none => simp [processRouteCore, hm]
    | some params =>
      have hguard : (!routeKeepsBasePath r &&
          !((R.basePath == "") || req.hadBasePath) && !req.didRewrite) = true := by
        simp [hkeep, hhad, hrw, hbp]
      simp only [processRouteCore, hm, hguard, if_true]
      refine ⟨?_, ?_, fun _ => ?_⟩ <;> split_ifs <;> simp_all
  have heq : processRoute R req r url = processRouteCore R req r url := by
    simp [processRoute, hcore.1]
  rw [heq]
  exact hcore

/-- Witness for the amended C4 theorem: a matching non-custom
filesystem route on a router with base path /docs, for a request that
did not carry the base path, is never invoked and exits with the
not-found short-circuit. -/
theorem basePathGuard_witness :
    (processRoute sampleRouter { hadBasePath := false } fsRouteX
      { pathname := "/x" }).invoked = false ∧
    (processRoute sampleRouter { hadBasePath := false } fsRouteX
      { pathname := "/x" }).exit = StepExit.notFound := by
  have h := basePathGuard sampleRouter { hadBasePath := false } fsRouteX
    { pathname := "/x" } (by decide) (by decide) (by decide) rfl rfl
  refine ⟨h.1, ?_⟩
  rw [h.2.2 (by decide)]
  decide

/-- C4 counterexample: the public-folder catch-all built by
generatePublicRoutes is a non-custom route (it carries no type) that
never declares requireBasePath false, yet on a router with base path
/docs and a request that neither originally carried the base path nor
was rewritten, the engine still invokes its handler — the route's name
makes it keep the base path, bypassing the guard. -/
theorem publicFolderGuard_counterexample :
    (processRoute sampleRouter { hadBasePath := false } publicFolderRoute
      { pathname := "/style.css" }).invoked = true ∧
    (processRoute sampleRouter { hadBasePath := false } publicFolderRoute
      { pathname := "/style.css" }).trace = ["public folder catchall"] ∧
    customRouteTypes.contains publicFolderRoute.rtype = false ∧
    publicFolderRoute.requireBasePath = true ∧
    sampleRouter.basePath = "/docs" := by
  refine ⟨by decide, by decide, by decide, by decide, by decide⟩

end Spec2Proof
